import Mathlib

/-!
Verification model of block/etre.

The definitions below are shallow embeddings of the repository's Go source:
the schema manager (package `schema`, src/unnamed/part_000) together with its
configuration types (src/schema/config.go), the entity store's insert and
delete-label operations, and the auth manager's trace-header handling.  The
schema-manager functions are translated directly from the source; database
interaction (the mongo driver) is abstracted into an environment `DbEnv`
that fixes the outcome of each driver call, and every driver call the code
makes is recorded in an effect trace of `MongoOp`s so that frame properties
("no index was dropped") can be stated.  The entity store and the auth
manager have no implementation under src/ (only their tests), so those are
modelled from the specification, with the concrete behaviour pinned by
their tests (src/entity/store_test.go, src/auth/auth_test.go).
-/

namespace Etre

/-- Case rules for a field (src/schema/config.go `Case`): `Strict` and
`Type` (only "lower" is supported). -/
structure Case where
  strict : Bool
  type : String
  deriving DecidableEq

/-- A schema field (src/schema/config.go `Field`).  The Go field `Case` is
named `fieldCase` here because `case` is a Lean keyword; the Go `Enum`
field is a nilable slice, embedded as `Option (List String)` so that a nil
enum (`none`) is distinguished from an empty one (`some []`) exactly as in
Go. -/
structure Field where
  name : String
  type : String
  required : Bool := false
  pattern : String := ""
  fieldCase : Option Case := none
  enum : Option (List String) := none
  dependents : List String := []
  description : String := ""
  deriving DecidableEq

/-- An index definition (src/schema/config.go `Index`). -/
structure Index where
  keys : List String
  unique : Bool := false
  direction : List Int := []
  sparse : Bool := false
  deriving DecidableEq

/-- Entity schema (src/schema/config.go `Schema`). -/
structure Schema where
  fields : List Field
  additionalProperties : Bool := false
  indexes : List Index := []
  validationLevel : String := ""
  deriving DecidableEq

/-- Per-entity schema wrapper (src/schema/config.go `EntitySchema`); the Go
`Schema *Schema` pointer is embedded as an `Option`. -/
structure EntitySchema where
  schema : Option Schema
  deriving DecidableEq

/-- src/unnamed/part_000 constant `defaultIndexDirection`. -/
def defaultIndexDirection : Int := 1

/-- src/unnamed/part_000 constant `defaultJSONSchemaValidationLevel`. -/
def defaultJSONSchemaValidationLevel : String := "moderate"

/-- src/unnamed/part_000 constant `regexLowerCase`. -/
def regexLowerCase : String := "^[a-z0-9\\W_]+$"

/-- src/unnamed/part_000 constant `regexRFC3339` (literal braces written as
escapes). -/
def regexRFC3339 : String :=
  "^\\d\x7b4\x7d-\\d\x7b2\x7d-\\d\x7b2\x7dT\\d\x7b2\x7d:\\d\x7b2\x7d:\\d\x7b2\x7d(\\.\\d+)?([+-]\\d\x7b2\x7d:\\d\x7b2\x7d|Z)$"

/-- src/unnamed/part_000 constant `regexInt64` (literal braces written as
escapes). -/
def regexInt64 : String :=
  "^(-?(0|[1-9]\\d\x7b0,18\x7d)|922337203685477580[0-7]|-9223372036854775808)$"

/-- The error values declared in src/unnamed/part_000 (`errNoKeysForIndex`
and friends) plus the three error cases produced with `fmt.Errorf` /
wrapped database errors.  Each Go error variable is a distinct constructor. -/
inductive SchemaErr where
  | noKeysForIndex
  | tooManyKeysForIndex
  | keysAndDirectionsDoNotMatch
  | invalidIndexDirection
  | indexSparseAndUnique
  | invalidFieldType
  | enumNotString
  | fieldNameEmpty
  | noIndexesDefined
  | invalidValidationLevel
  | dbError
  deriving DecidableEq

/-- src/unnamed/part_000 `intSliceToString`: `strconv.Itoa` on each element. -/
def intSliceToString (slice : List Int) : List String :=
  slice.map toString

/-- The index-name kind chosen at the top of src/unnamed/part_000
`indexName`: "IL" if unique, else "SPARSE" if sparse, else "SL". -/
def indexNameKind (index : Index) : String :=
  if index.unique then "IL" else if index.sparse then "SPARSE" else "SL"

/-- src/unnamed/part_000 `indexName`.  `strings.Join(xs, "_")` is
`String.intercalate "_" xs`. -/
def indexName (index : Index) : String :=
  if index.keys.length = 0 then ""
  else if index.direction.length = 0 then
    indexNameKind index ++ "_" ++ String.intercalate "_" index.keys
  else
    indexNameKind index ++ "_" ++ String.intercalate "_" index.keys ++ "_" ++
      String.intercalate "_" (intSliceToString index.direction)

/-- src/unnamed/part_000 `toBSONIndex`: the ordered key/direction document
passed to the driver.  When a direction list is present the Go loop indexes
it by the key position; the lengths are validated equal before this is
called, and `List.zip` agrees with the Go loop in that case. -/
def toBSONIndex (index : Index) : List (String × Int) :=
  if index.direction.length = 0 then
    index.keys.map (fun key => (key, defaultIndexDirection))
  else
    index.keys.zip index.direction

/-- One per-field value constraint emitted into the `$jsonSchema`
document: at most one of the `pattern` and `enum` keywords is set on a
field schema by the switch in src/unnamed/part_000 `BSONSchemaValidator`
(lines 352-377). -/
inductive Constraint where
  | pattern (p : String)
  | enum (values : List String)
  deriving DecidableEq

/-- The per-field schema document built by `BSONSchemaValidator`: its
`bsonType` plus the optional value constraint. -/
structure FieldSchema where
  bsonType : String
  constraint : Option Constraint
  deriving DecidableEq

/-- The `$jsonSchema` document built by `BSONSchemaValidator`: field
properties in declaration order, the required-field names, the
dependencies map (empty list = the key is absent in Go), and
`additionalProperties`. -/
structure JsonSchema where
  properties : List (String × FieldSchema)
  required : List String
  dependencies : List (String × List String)
  additionalProperties : Bool
  deriving DecidableEq

/-- The field-type-to-BSON-type switch of src/unnamed/part_000
`BSONSchemaValidator` (lines 324-335); `none` is the
`errInvalidFieldType` default branch. -/
def bsonTypeOf (t : String) : Option String :=
  if t = "string" ∨ t = "bool" ∨ t = "object" then some t
  else if t = "int" then some "long"
  else if t = "datetime" ∨ t = "int-str" ∨ t = "bool-str" then some "string"
  else none

/-- The pattern/enum/case switch of src/unnamed/part_000
`BSONSchemaValidator` (lines 347-377), which choses at most one value
constraint for a field: explicit pattern, else non-empty enum
(`field.Enum != nil && len(field.Enum) > 0` is `0 < (field.enum.getD
[]).length`), else the type-driven pattern or enum for
datetime/int-str/bool-str, else the lower-case rule when the effective
case config is strict and the BSON type is string. -/
def fieldConstraint (field : Field) (globalCase : Case) : Option Constraint :=
  let effectiveCase := field.fieldCase.getD globalCase
  let bsonType := (bsonTypeOf field.type).getD ""
  if field.pattern ≠ "" then some (.pattern field.pattern)
  else if 0 < (field.enum.getD []).length then some (.enum (field.enum.getD []))
  else if field.type = "datetime" then some (.pattern regexRFC3339)
  else if field.type = "int-str" then some (.pattern regexInt64)
  else if field.type = "bool-str" then some (.enum ["true", "false"])
  else if effectiveCase.strict = true ∧ bsonType = "string" then
    if effectiveCase.type = "lower" then some (.pattern regexLowerCase) else none
  else none

/-- The per-field loop of src/unnamed/part_000 `BSONSchemaValidator`
(lines 318-387): for each field in order, reject an empty name, an
unsupported type, and a non-nil enum on a non-string field; otherwise
accumulate the property, the required-name list and the dependencies. -/
def BSONSchemaValidatorLoop (globalCase : Case) :
    List Field → Except SchemaErr (List (String × FieldSchema) × List String × List (String × List String))
  | [] => .ok ([], [], [])
  | field :: rest =>
    if field.name = "" then .error .fieldNameEmpty
    else
      match bsonTypeOf field.type with
      | none => .error .invalidFieldType
      | some bsonType =>
        if field.type ≠ "string" ∧ field.enum ≠ none then .error .enumNotString
        else
          match BSONSchemaValidatorLoop globalCase rest with
          | .error e => .error e
          | .ok (props, req, deps) =>
            .ok ((field.name, ⟨bsonType, fieldConstraint field globalCase⟩) :: props,
              (if field.required then field.name :: req else req),
              (if 0 < field.dependents.length then (field.name, field.dependents) :: deps else deps))

/-- src/unnamed/part_000 `BSONSchemaValidator`: build the `$jsonSchema`
validator document for a schema, or fail on the first invalid field. -/
def BSONSchemaValidator (schema : Schema) (globalCase : Case) : Except SchemaErr JsonSchema :=
  match BSONSchemaValidatorLoop globalCase schema.fields with
  | .error e => .error e
  | .ok (props, req, deps) => .ok ⟨props, req, deps, schema.additionalProperties⟩

/-- Outcome of a single driver `CreateOne` call, fixed by the environment:
success, the DocumentDB "Existing index build in progress on the same
collection" error, or any other error. -/
inductive CreateOneResult where
  | ok
  | buildInProgress
  | failed
  deriving DecidableEq

/-- Outcome of a single driver `DropOne` call: success, an "index not
found" error, or any other error. -/
inductive DropOneResult where
  | ok
  | notFound
  | failed
  deriving DecidableEq

/-- Abstraction of the mongo driver: the outcome of every call the schema
manager can make.  `listIndexes = none` models a listing error. -/
structure DbEnv where
  createOne : Index → CreateOneResult
  listIndexes : Option (List String)
  dropOne : String → DropOneResult
  collModOk : Bool

/-- One driver call made by the schema manager, recorded in order. -/
inductive MongoOp where
  | createOne (name : String) (keys : List (String × Int)) (unique sparse : Bool)
  | listIndexes
  | dropOne (name : String)
  | disableValidation
  | setValidator (validator : JsonSchema) (level : String)
  deriving DecidableEq

/-- Result of src/unnamed/part_000 `createIndex`: the index name on
success, or the distinguished build-in-progress condition that
`updateMongoIndexes` tests for with `strings.Contains`, or an error. -/
inductive CreateIndexOutcome where
  | ok (name : String)
  | buildInProgress
  | err (e : SchemaErr)
  deriving DecidableEq

/-- src/unnamed/part_000 `createIndex`: the five up-front configuration
checks in source order, then the driver `CreateOne` call.  The effect
trace holds the `CreateOne` call exactly when all checks pass. -/
def createIndex (env : DbEnv) (index : Index) : List MongoOp × CreateIndexOutcome :=
  if index.keys.length = 0 then ([], .err .noKeysForIndex)
  else if index.keys.length > 30 then ([], .err .tooManyKeysForIndex)
  else if 0 < index.direction.length ∧ index.keys.length ≠ index.direction.length then
    ([], .err .keysAndDirectionsDoNotMatch)
  else if index.sparse ∧ index.unique then ([], .err .indexSparseAndUnique)
  else if ¬ index.direction.all (fun d => d == 1 || d == -1) then
    ([], .err .invalidIndexDirection)
  else
    ([.createOne (indexName index) (toBSONIndex index) index.unique index.sparse],
      match env.createOne index with
      | .ok => .ok (indexName index)
      | .buildInProgress => .buildInProgress
      | .failed => .err .dbError)

/-- The creation loop of src/unnamed/part_000 `updateMongoIndexes` (lines
104-116): create each index in order, collecting the created names; on the
build-in-progress error `break` (stop creating, no error); on any other
error return it. -/
def createLoop (env : DbEnv) : List Index → List MongoOp × List String × Option SchemaErr
  | [] => ([], [], none)
  | index :: rest =>
    match createIndex env index with
    | (ops, .ok name) =>
      (ops ++ (createLoop env rest).1, name :: (createLoop env rest).2.1,
        (createLoop env rest).2.2)
    | (ops, .buildInProgress) => (ops, [], none)
    | (ops, .err e) => (ops, [], some e)

/-- `strings.HasPrefix(name, "_")`: whether the name's first character is
'_'. -/
def startsWithUnderscore (name : String) : Bool :=
  match name.toList with
  | c :: _ => c = '_'
  | [] => false

/-- The drop loop of src/unnamed/part_000 `updateMongoIndexes` (lines
130-150): every existing index that was not created in this run and does
not start with "_" is dropped; "index not found" is tolerated, any other
drop error aborts. -/
def dropLoop (env : DbEnv) (created : List String) : List String → List MongoOp × Option SchemaErr
  | [] => ([], none)
  | name :: rest =>
    if created.contains name || startsWithUnderscore name then dropLoop env created rest
    else
      match env.dropOne name with
      | .failed => ([.dropOne name], some .dbError)
      | _ =>
        let (ops, err) := dropLoop env created rest
        (.dropOne name :: ops, err)

/-- src/unnamed/part_000 `updateMongoIndexes`: reject an empty index list,
run the creation loop, then (unless a hard creation error occurred) list
the existing indexes and run the drop loop. -/
def updateMongoIndexes (env : DbEnv) (indexes : List Index) : List MongoOp × Option SchemaErr :=
  if indexes.length = 0 then ([], some .noIndexesDefined)
  else
    match createLoop env indexes with
    | (ops, _, some e) => (ops, some e)
    | (ops, created, none) =>
      match env.listIndexes with
      | none => (ops ++ [.listIndexes], some .dbError)
      | some existing =>
        let (dops, derr) := dropLoop env created existing
        (ops ++ [.listIndexes] ++ dops, derr)

/-- src/unnamed/part_000 `disableMongoJSONValidation`: a single `collMod`
call switching the validator off. -/
def disableMongoJSONValidation (env : DbEnv) : List MongoOp × Option SchemaErr :=
  ([.disableValidation], if env.collModOk then none else some .dbError)

/-- src/unnamed/part_000 `updateMongoJSONValidation`: with no fields,
disable validation; otherwise build the validator, default the validation
level to "moderate", reject anything other than "moderate"/"strict", and
issue the `collMod` call. -/
def updateMongoJSONValidation (env : DbEnv) (schema : Schema) (globalCase : Case) :
    List MongoOp × Option SchemaErr :=
  if schema.fields.length = 0 then disableMongoJSONValidation env
  else
    match BSONSchemaValidator schema globalCase with
    | .error e => ([], some e)
    | .ok validator =>
      let level := if schema.validationLevel = "" then defaultJSONSchemaValidationLevel
        else schema.validationLevel
      if level = "moderate" ∨ level = "strict" then
        ([.setValidator validator level], if env.collModOk then none else some .dbError)
      else ([], some .invalidValidationLevel)

/-- The per-entity body of src/unnamed/part_000 `CreateOrUpdateMongoSchema`
(lines 48-75): a nil schema only disables JSON validation; otherwise the
indexes are reconciled and then the validator updated.  The Go function
iterates this over the `config.Entities` map; the claims here are
per-entity, so the body is modelled for one entity. -/
def createOrUpdateEntitySchema (env : DbEnv) (globalCase : Case) (validations : EntitySchema) :
    List MongoOp × Option SchemaErr :=
  match validations.schema with
  | none => disableMongoJSONValidation env
  | some schema =>
    match updateMongoIndexes env schema.indexes with
    | (ops, some e) => (ops, some e)
    | (ops, none) =>
      let (vops, verr) := updateMongoJSONValidation env schema globalCase
      (ops ++ vops, verr)

/-- The character class `[0-9]` (`\d`); `'0'.toNat = 48` and
`'9'.toNat = 57`. -/
def isDigitChar (c : Char) : Bool :=
  48 ≤ c.toNat && c.toNat ≤ 57

/-- The sub-expression `0|[1-9]\d\x7b0,18\x7d` of `regexInt64`: either
exactly "0", or a leading digit in `[1-9]` followed by at most 18 further
digits.  A string starting with '0' can only match the first alternative,
and any other string only the second. -/
def regexInt64Core (s : List Char) : Bool :=
  match s with
  | [] => false
  | c :: rest =>
    if c = '0' then rest.isEmpty
    else 49 ≤ c.toNat && c.toNat ≤ 57 &&
      rest.length ≤ 18 && rest.all isDigitChar

/-- The first alternative `-?(0|[1-9]\d\x7b0,18\x7d)` of `regexInt64`; the
core cannot begin with '-', so consuming the optional sign first is
equivalent to the regex semantics. -/
def regexInt64Signed (s : List Char) : Bool :=
  match s with
  | [] => regexInt64Core []
  | c :: rest => if c = '-' then regexInt64Core rest else regexInt64Core (c :: rest)

/-- Match a literal character sequence followed by one character of the
class `[lo-hi]` (character codes). -/
def matchLiteralThenRange (lo hi : Nat) : List Char → List Char → Bool
  | [], [c] => lo ≤ c.toNat && c.toNat ≤ hi
  | a :: lit, c :: s => c = a && matchLiteralThenRange lo hi lit s
  | _, _ => false

/-- The second alternative `922337203685477580[0-7]` of `regexInt64`: the
18-character literal then one character of `[0-7]` (codes 48 to 55). -/
def regexInt64MaxEdge (s : List Char) : Bool :=
  matchLiteralThenRange 48 55 "922337203685477580".toList s

/-- The third alternative `-9223372036854775808` of `regexInt64`. -/
def regexInt64MinEdge (s : List Char) : Bool :=
  s == "-9223372036854775808".toList

/-- The language of the anchored regular expression `regexInt64`
(src/unnamed/part_000 line 28): the alternation of its three
alternatives, each transcribed above. -/
def regexInt64Matches (s : String) : Bool :=
  regexInt64Signed s.toList || regexInt64MaxEdge s.toList || regexInt64MinEdge s.toList

/-- The non-negative value of a decimal digit string. -/
def decDigitsValue (ds : List Char) : Nat :=
  ds.foldl (fun acc c => 10 * acc + (c.toNat - '0'.toNat)) 0

/-- Follows the spec's words (claim C4, spec §4.B): "an optionally-negated
decimal digit string of at most 19 digits denoting a value in
[-9223372036854775808, 9223372036854775807]".  A leading '-' negates, so
the bound for negated strings is 9223372036854775808 and for plain ones
9223372036854775807. -/
def specInt64Lang (s : String) : Bool :=
  match s.toList with
  | [] => false
  | c :: rest =>
    if c = '-' then
      !rest.isEmpty && rest.all isDigitChar && rest.length ≤ 19 &&
        decDigitsValue rest ≤ 9223372036854775808
    else
      (c :: rest).all isDigitChar && (c :: rest).length ≤ 19 &&
        decDigitsValue (c :: rest) ≤ 9223372036854775807

/-- A canonical decimal digit string of 1 to 19 digits: either exactly
"0", or a leading digit other than '0' (`'0'.toNat = 48`) followed by at
most 18 digits. -/
def canonicalDigits (l : List Char) : Bool :=
  match l with
  | [] => false
  | d :: ds =>
    isDigitChar d && ds.all isDigitChar && ds.length ≤ 18 &&
      (d.toNat ≠ 48 || ds.isEmpty)

/-- The language `regexInt64` actually denotes: an optional minus sign
followed by a canonical decimal digit string of 1 to 19 digits.  No int64
range bound is enforced. -/
def canonicalDec19 (s : String) : Bool :=
  match s.toList with
  | [] => false
  | c :: rest => canonicalDigits (if c = '-' then rest else c :: rest)

/-- Entity label values (spec §3): string, 64-bit integer or boolean; the
server-issued object id is modelled as a string. -/
inductive Value where
  | str (s : String)
  | int (i : Int)
  | bool (b : Bool)
  deriving DecidableEq

/-- An entity: an ordered association of label names to values (spec §3). -/
abbrev Entity := List (String × Value)

/-- The three reserved meta-labels (spec §3). -/
def metaLabels : List String := ["_id", "_type", "_rev"]

/-- A CDC event (spec §3, etre.CDCEvent).  The nondeterministic `Id` and
`Ts` attributes, which the tests mask out before comparing, are omitted. -/
structure CDCEvent where
  entityId : String
  entityType : String
  entityRev : Int
  op : String
  old : Option Entity := none
  new : Option Entity := none
  caller : String := ""
  setId : String := ""
  setOp : String := ""
  setSize : Int := 0
  deriving DecidableEq

/-- entity.WriteOp (see src/entity/store_test.go): the entity type, the
caller, an optional entity id and the optional change-set tags. -/
structure WriteOp where
  entityType : String
  entityId : String := ""
  caller : String := ""
  setId : String := ""
  setOp : String := ""
  setSize : Int := 0
  deriving DecidableEq

/-- The error taxonomy of spec §7 (the entries the store operations can
produce). -/
inductive StoreErrType where
  | duplicateEntity
  | dbError
  | noContent
  | invalidParam
  | entityNotFound
  deriving DecidableEq

/-- Outcome of one driver insert: success, a duplicate-key error, or any
other database error. -/
inductive InsertOutcome where
  | ok
  | dupKey
  | dbFailed
  deriving DecidableEq

/-- Abstraction of the database for `createEntities`: the fresh id
assigned to the k-th entity of the batch and the outcome of its insert. -/
structure InsertEnv where
  newId : Nat → String
  outcome : Nat → InsertOutcome

/-- The entity as inserted: fresh `_id`, the write op's `_type`, and
`_rev = 0` added to the caller's labels (spec §4.E Insert step 1; pinned
by the `New` entities expected in TestCreateEntitiesMultiple). -/
def insertedEntity (env : InsertEnv) (wo : WriteOp) (k : Nat) (e : Entity) : Entity :=
  ("_id", .str (env.newId k)) :: ("_type", .str wo.entityType) :: ("_rev", .int 0) :: e

/-- Change-set tag on an insert event: TestCreateEntitiesMultiple pins
that an entity's own `_setId`/`_setOp`/`_setSize` labels are copied onto
its event; absent those, the write op's tags apply (spec §4.E). -/
def entitySetId (wo : WriteOp) (e : Entity) : String :=
  match e.lookup "_setId" with
  | some (.str s) => s
  | _ => wo.setId

/-- See `entitySetId`. -/
def entitySetOp (wo : WriteOp) (e : Entity) : String :=
  match e.lookup "_setOp" with
  | some (.str s) => s
  | _ => wo.setOp

/-- See `entitySetId`. -/
def entitySetSize (wo : WriteOp) (e : Entity) : Int :=
  match e.lookup "_setSize" with
  | some (.int i) => i
  | _ => wo.setSize

/-- The CDC event for a successful insert (spec §4.E Insert step 3):
`Op = "i"`, `Old = nil`, `New` the full inserted entity, `EntityRev = 0`. -/
def insertEvent (env : InsertEnv) (wo : WriteOp) (k : Nat) (e : Entity) : CDCEvent :=
  { entityId := env.newId k
    entityType := wo.entityType
    entityRev := 0
    op := "i"
    old := none
    new := some (insertedEntity env wo k e)
    caller := wo.caller
    setId := entitySetId wo e
    setOp := entitySetOp wo e
    setSize := entitySetSize wo e }

/-- The insert loop (spec §4.E Insert steps 1-5): in batch order, insert
and emit one "i" event per success; a dup-key failure stops the batch
immediately with `duplicate-entity`; any other failure stops it with a
database error.  Returns the assigned ids, the emitted events and the
terminal error, if any. -/
def createEntitiesLoop (env : InsertEnv) (wo : WriteOp) :
    Nat → List Entity → List String × List CDCEvent × Option StoreErrType
  | _, [] => ([], [], none)
  | k, e :: rest =>
    match env.outcome k with
    | .dupKey => ([], [], some .duplicateEntity)
    | .dbFailed => ([], [], some .dbError)
    | .ok =>
      (env.newId k :: (createEntitiesLoop env wo (k + 1) rest).1,
        insertEvent env wo k e :: (createEntitiesLoop env wo (k + 1) rest).2.1,
        (createEntitiesLoop env wo (k + 1) rest).2.2)

/-- Whether some entity of the batch carries a caller-supplied `_id` or
`_rev` meta-label (rejected with `invalid-param`, spec §4.E Insert). -/
def hasCallerMetaLabels (entities : List Entity) : Bool :=
  entities.any (fun e => (e.lookup "_id").isSome || (e.lookup "_rev").isSome)

/-- Modelled from the spec: `entity.Store.CreateEntities` is not under
src/ (only its test is).  Spec §4.E Insert: reject an empty batch with
`no-content` and caller-supplied `_id`/`_rev` with `invalid-param`; then
run the insert loop from the start of the batch.  The pinned expectations
of TestCreateEntitiesMultiple and TestCreateEntitiesMultiplePartialSuccess
(src/entity/store_test.go) are followed for the ids, events and error. -/
def createEntities (env : InsertEnv) (wo : WriteOp) (entities : List Entity) :
    List String × List CDCEvent × Option StoreErrType :=
  if entities.isEmpty then ([], [], some .noContent)
  else if hasCallerMetaLabels entities then ([], [], some .invalidParam)
  else createEntitiesLoop env wo 0 entities

/-- Projection of an entity onto a list of label names, preserving the
entity's own label order (a mongo field projection). -/
def projectLabels (e : Entity) (keep : List String) : Entity :=
  e.filter (fun kv => keep.contains kv.1)

/-- Remove one label from an entity. -/
def removeLabel (e : Entity) (label : String) : Entity :=
  e.filter (fun kv => kv.1 ≠ label)

/-- Increment an integer revision value (the `$inc` on `_rev`). -/
def incRev : Value → Value
  | .int i => .int (i + 1)
  | v => v

/-- Apply the `$inc` of `_rev` to an entity. -/
def bumpRev (e : Entity) : Entity :=
  e.map (fun kv => if kv.1 = "_rev" then (kv.1, incRev kv.2) else kv)

/-- The entity's `_rev` (0 when absent or non-integer). -/
def revOf (e : Entity) : Int :=
  match e.lookup "_rev" with
  | some (.int i) => i
  | _ => 0

/-- The entity's `_id` as a hex string ("" when absent). -/
def idOf (e : Entity) : String :=
  match e.lookup "_id" with
  | some (.str s) => s
  | _ => ""

/-- The prior document returned by DeleteLabel: the entity projected onto
the meta-labels plus the deleted label, exactly as pinned by the
`expectOld` of TestDeleteLabel (src/entity/store_test.go lines 692-698). -/
def deleteLabelOld (e : Entity) (label : String) : Entity :=
  projectLabels e (metaLabels ++ [label])

/-- The stored entity after DeleteLabel: the label removed and `_rev`
incremented (spec §4.E DeleteLabel; pinned by the read-back check of
TestDeleteLabel). -/
def deleteLabelUpdated (e : Entity) (label : String) : Entity :=
  bumpRev (removeLabel e label)

/-- The CDC event DeleteLabel emits: `Op = "u"`, `Old` the prior
projection (meta-labels plus the deleted label) and `New` the updated
entity's meta-labels, exactly as pinned by the `expectEvent` of
TestDeleteLabel (src/entity/store_test.go lines 718-735). -/
def deleteLabelEvent (wo : WriteOp) (e : Entity) (label : String) : CDCEvent :=
  { entityId := idOf e
    entityType := wo.entityType
    entityRev := revOf e + 1
    op := "u"
    old := some (deleteLabelOld e label)
    new := some (projectLabels (deleteLabelUpdated e label) metaLabels)
    caller := wo.caller
    setId := wo.setId
    setOp := wo.setOp
    setSize := wo.setSize }

/-- Result of a successful DeleteLabel: the returned prior document, the
updated stored entity, and the emitted CDC event. -/
structure DeleteLabelResult where
  old : Entity
  updated : Entity
  event : CDCEvent
  deriving DecidableEq

/-- Modelled from the spec: `entity.Store.DeleteLabel` is not under src/
(only its test is).  Spec §4.E DeleteLabel: reject deletion of a
meta-label with `invalid-param`; otherwise remove the label, increment
`_rev`, and emit one "u" CDC event.  The contents of the returned prior
document and of the event's `Old`/`New` follow the exact expectations of
TestDeleteLabel (src/entity/store_test.go lines 674-736), which include
the meta-labels. -/
def deleteLabel (wo : WriteOp) (e : Entity) (label : String) :
    Except StoreErrType DeleteLabelResult :=
  if metaLabels.contains label then .error .invalidParam
  else .ok ⟨deleteLabelOld e label, deleteLabelUpdated e label, deleteLabelEvent wo e label⟩

/-- A caller's trace map, ordered. -/
abbrev TraceMap := List (String × String)

/-- `strings.Split` with a one-character separator: split a character list
at every occurrence of `sep` (splitting "" yields [""], exactly as in Go). -/
def splitOnChar (sep : Char) : List Char → List (List Char)
  | [] => [[]]
  | c :: rest =>
    let r := splitOnChar sep rest
    if c = sep then [] :: r
    else
      match r with
      | g :: gs => (c :: g) :: gs
      | [] => [[c]]

/-- Split a `key=value` trace pair at its first '='; a pair containing no
'=' is malformed (spec §6) and yields `none`. -/
def splitFirstEq : List Char → Option (List Char × List Char)
  | [] => none
  | c :: rest =>
    if c = '=' then some ([], rest)
    else
      match splitFirstEq rest with
      | some (k, v) => some (c :: k, v)
      | none => none

/-- `splitFirstEq` on a string pair, packing the key and value back into
strings. -/
def parseTracePair (p : List Char) : Option (String × String) :=
  match splitFirstEq p with
  | some (k, v) => some (String.mk k, String.mk v)
  | none => none

/-- Add one parsed pair to the trace map unless its key is already set
(TestTraceHeader pins that keys set by the auth plugin are not
overwritten). -/
def addTracePair (m : TraceMap) (kv : String × String) : TraceMap :=
  if (m.lookup kv.1).isSome then m else m ++ [kv]

/-- Modelled from the spec: `auth.Manager.Authenticate`'s X-Etre-Trace
handling is not under src/ (only its test is).  Spec §6 Headers: the
header carries comma-separated key=value pairs appended to the caller's
trace; malformed pairs (no '=') are silently dropped; an empty header
leaves the trace nil.  TestTraceHeader (src/auth/auth_test.go lines
217-276) additionally pins that values set by the auth plugin are kept. -/
def authenticateTrace (pluginTrace : Option TraceMap) (header : String) : Option TraceMap :=
  if header = "" then pluginTrace
  else
    some ((splitOnChar ',' header.toList).foldl
      (fun m p =>
        match parseTracePair p with
        | some kv => addTracePair m kv
        | none => m)
      (pluginTrace.getD []))

/-! ### Helper lemmas -/

/-- The tail part of an underscore join: `"_" ++ x` for every element. -/
def intercalateTail (s : String) : List String → String
  | [] => ""
  | x :: xs => s ++ x ++ intercalateTail s xs

theorem intercalate_go_eq (s : String) :
    ∀ (l : List String) (acc : String),
      String.intercalate.go acc s l = acc ++ intercalateTail s l := by
  intro l
  induction l with
  | nil => intro acc; simp [String.intercalate.go, intercalateTail]
  | cons x xs ih =>
    intro acc
    simp [String.intercalate.go, intercalateTail, ih, String.append_assoc]

theorem intercalate_eq_tail (s : String) (a : String) (l : List String) :
    String.intercalate s (a :: l) = a ++ intercalateTail s l := by
  simp [String.intercalate, intercalate_go_eq]

theorem intercalateTail_append (s : String) (l₁ l₂ : List String) :
    intercalateTail s (l₁ ++ l₂) = intercalateTail s l₁ ++ intercalateTail s l₂ := by
  induction l₁ with
  | nil => simp [intercalateTail]
  | cons x xs ih => simp [intercalateTail, ih, String.append_assoc]

theorem intercalateTail_eq_intercalate (s : String) (a : String) (l : List String) :
    intercalateTail s (a :: l) = s ++ String.intercalate s (a :: l) := by
  simp [intercalateTail, intercalate_eq_tail, String.append_assoc]

/-! ### C7: index naming -/

/-- C7: for every index definition with at least one key, the name is the
kind tag ("IL" when unique, "SPARSE" when sparse, "SL" otherwise) joined
by underscores with the key names and — exactly when an explicit direction
list was given — the decimal directions; and the name depends only on the
keys, the kind and the directions. -/
theorem indexName_spec (index : Index) (h : 0 < index.keys.length) :
    indexName index =
      String.intercalate "_"
        (indexNameKind index :: (index.keys ++ index.direction.map toString)) ∧
    (∀ index' : Index, index'.keys = index.keys →
      indexNameKind index' = indexNameKind index →
      index'.direction = index.direction →
      indexName index' = indexName index) := by
  constructor
  · obtain ⟨k, keys, hk⟩ : ∃ k keys, index.keys = k :: keys := by
      cases hkeys : index.keys with
      | nil => rw [hkeys] at h; simp at h
      | cons k keys => exact ⟨k, keys, rfl⟩
    unfold indexName
    rw [hk]
    cases hdir : index.direction with
    | nil =>
      simp [intercalate_eq_tail, intercalateTail_append, intercalateTail,
        String.append_assoc]
    | cons d ds =>
      simp [intSliceToString, intercalate_eq_tail, intercalateTail_append,
        intercalateTail, String.append_assoc]
  · intro index' h1 h2 h3
    unfold indexName
    rw [h1, h2, h3]

/-- Witness for `indexName_spec` at the compound directed index of
TestIndexName ("SL_app_region_env_1_-1_1"). -/
theorem indexName_spec_witness :
    indexName { keys := ["app", "region", "env"], direction := [1, -1, 1] } =
      String.intercalate "_"
        (indexNameKind { keys := ["app", "region", "env"], direction := [1, -1, 1] } ::
          (["app", "region", "env"] ++ ([1, -1, 1] : List Int).map toString)) :=
  (indexName_spec { keys := ["app", "region", "env"], direction := [1, -1, 1] }
    (by decide)).1

/-! ### C6: createIndex validation -/

/-- Follows the claim's words: an index definition is invalid when it has
zero keys, more than 30 keys, a non-empty direction list whose length
differs from the number of keys, a direction value other than 1 or -1, or
both unique and sparse set. -/
def invalidIndex (index : Index) : Prop :=
  index.keys.length = 0 ∨ 30 < index.keys.length ∨
    (index.direction ≠ [] ∧ index.direction.length ≠ index.keys.length) ∨
    (∃ d ∈ index.direction, d ≠ 1 ∧ d ≠ -1) ∨
    (index.unique = true ∧ index.sparse = true)

theorem createIndex_eq_noKeys (env : DbEnv) (index : Index)
    (h1 : index.keys.length = 0) :
    createIndex env index = ([], .err .noKeysForIndex) := by
  unfold createIndex
  rw [if_pos h1]

theorem createIndex_eq_tooMany (env : DbEnv) (index : Index)
    (h1 : ¬ index.keys.length = 0) (h2 : index.keys.length > 30) :
    createIndex env index = ([], .err .tooManyKeysForIndex) := by
  unfold createIndex
  rw [if_neg h1, if_pos h2]

theorem createIndex_eq_mismatch (env : DbEnv) (index : Index)
    (h1 : ¬ index.keys.length = 0) (h2 : ¬ index.keys.length > 30)
    (h3 : 0 < index.direction.length ∧ index.keys.length ≠ index.direction.length) :
    createIndex env index = ([], .err .keysAndDirectionsDoNotMatch) := by
  unfold createIndex
  rw [if_neg h1, if_neg h2, if_pos h3]

theorem createIndex_eq_sparseUnique (env : DbEnv) (index : Index)
    (h1 : ¬ index.keys.length = 0) (h2 : ¬ index.keys.length > 30)
    (h3 : ¬ (0 < index.direction.length ∧ index.keys.length ≠ index.direction.length))
    (h4 : index.sparse = true ∧ index.unique = true) :
    createIndex env index = ([], .err .indexSparseAndUnique) := by
  unfold createIndex
  rw [if_neg h1, if_neg h2, if_neg h3, if_pos h4]

theorem createIndex_eq_badDirection (env : DbEnv) (index : Index)
    (h1 : ¬ index.keys.length = 0) (h2 : ¬ index.keys.length > 30)
    (h3 : ¬ (0 < index.direction.length ∧ index.keys.length ≠ index.direction.length))
    (h4 : ¬ (index.sparse = true ∧ index.unique = true))
    (h5 : ¬ index.direction.all (fun d => d == 1 || d == -1) = true) :
    createIndex env index = ([], .err .invalidIndexDirection) := by
  unfold createIndex
  rw [if_neg h1, if_neg h2, if_neg h3, if_neg h4, if_pos h5]

theorem createIndex_eq_valid (env : DbEnv) (index : Index)
    (h1 : ¬ index.keys.length = 0) (h2 : ¬ index.keys.length > 30)
    (h3 : ¬ (0 < index.direction.length ∧ index.keys.length ≠ index.direction.length))
    (h4 : ¬ (index.sparse = true ∧ index.unique = true))
    (h5 : index.direction.all (fun d => d == 1 || d == -1) = true) :
    createIndex env index =
      ([.createOne (indexName index) (toBSONIndex index) index.unique index.sparse],
        match env.createOne index with
        | .ok => .ok (indexName index)
        | .buildInProgress => .buildInProgress
        | .failed => .err .dbError) := by
  unfold createIndex
  rw [if_neg h1, if_neg h2, if_neg h3, if_neg h4, if_neg (by simp [h5])]

theorem not_all_dir_iff (index : Index) :
    (¬ index.direction.all (fun d => d == 1 || d == -1) = true) ↔
      ∃ d ∈ index.direction, d ≠ 1 ∧ d ≠ -1 := by
  simp [List.all_eq_true, not_forall]

theorem invalidIndex_cases (index : Index)
    (h1 : ¬ index.keys.length = 0) (h2 : ¬ index.keys.length > 30)
    (h3 : ¬ (0 < index.direction.length ∧ index.keys.length ≠ index.direction.length))
    (h4 : ¬ (index.sparse = true ∧ index.unique = true))
    (h5 : index.direction.all (fun d => d == 1 || d == -1) = true) :
    ¬ invalidIndex index := by
  rintro (h | h | h | h | h)
  · exact h1 h
  · exact h2 h
  · refine h3 ⟨?_, fun he => h.2 he.symm⟩
    cases hd : index.direction with
    | nil => rw [hd] at h; simp at h
    | cons a l => simp
  · exact (not_all_dir_iff index).mpr h h5
  · exact h4 ⟨h.2, h.1⟩

/-- C6: `createIndex` fails with a configuration error (one distinct from
the wrapped database error) and issues no driver call exactly when the
index definition is invalid, and each single failure mode — under the
source's check order — yields its own distinct error value. -/
theorem createIndex_spec (env : DbEnv) (index : Index) :
    ((∃ e, (createIndex env index).2 = .err e ∧ e ≠ .dbError) ↔ invalidIndex index) ∧
    ((createIndex env index).1 = [] ↔ invalidIndex index) ∧
    (index.keys.length = 0 →
      (createIndex env index).2 = .err .noKeysForIndex) ∧
    (30 < index.keys.length →
      (createIndex env index).2 = .err .tooManyKeysForIndex) ∧
    (index.keys.length ≠ 0 → ¬ 30 < index.keys.length →
      index.direction ≠ [] → index.direction.length ≠ index.keys.length →
      (createIndex env index).2 = .err .keysAndDirectionsDoNotMatch) ∧
    (index.keys.length ≠ 0 → ¬ 30 < index.keys.length →
      (index.direction = [] ∨ index.direction.length = index.keys.length) →
      index.unique = true → index.sparse = true →
      (createIndex env index).2 = .err .indexSparseAndUnique) ∧
    (index.keys.length ≠ 0 → ¬ 30 < index.keys.length →
      (index.direction = [] ∨ index.direction.length = index.keys.length) →
      ¬ (index.unique = true ∧ index.sparse = true) →
      (∃ d ∈ index.direction, d ≠ 1 ∧ d ≠ -1) →
      (createIndex env index).2 = .err .invalidIndexDirection) := by
  by_cases h1 : index.keys.length = 0
  · rw [createIndex_eq_noKeys env index h1]
    refine ⟨⟨fun _ => Or.inl h1, fun _ => ⟨.noKeysForIndex, rfl, by decide⟩⟩,
      ⟨fun _ => Or.inl h1, fun _ => rfl⟩, fun _ => rfl, ?_, ?_, ?_, ?_⟩
    · intro h
      exact absurd h (by omega)
    · intro hk _ _ _
      exact absurd h1 hk
    · intro hk _ _ _ _
      exact absurd h1 hk
    · intro hk _ _ _ _
      exact absurd h1 hk
  by_cases h2 : index.keys.length > 30
  · rw [createIndex_eq_tooMany env index h1 h2]
    refine ⟨⟨fun _ => Or.inr (Or.inl h2), fun _ => ⟨.tooManyKeysForIndex, rfl, by decide⟩⟩,
      ⟨fun _ => Or.inr (Or.inl h2), fun _ => rfl⟩, fun h => absurd h h1, fun _ => rfl,
      ?_, ?_, ?_⟩
    · intro _ hlt _ _
      exact absurd h2 hlt
    · intro _ hlt _ _ _
      exact absurd h2 hlt
    · intro _ hlt _ _ _
      exact absurd h2 hlt
  by_cases h3 : 0 < index.direction.length ∧ index.keys.length ≠ index.direction.length
  · rw [createIndex_eq_mismatch env index h1 h2 h3]
    have hinv : invalidIndex index :=
      Or.inr (Or.inr (Or.inl ⟨List.length_pos.mp h3.1, fun he => h3.2 he.symm⟩))
    refine ⟨⟨fun _ => hinv, fun _ => ⟨.keysAndDirectionsDoNotMatch, rfl, by decide⟩⟩,
      ⟨fun _ => hinv, fun _ => rfl⟩, fun h => absurd h h1, fun h => absurd h h2,
      fun _ _ _ _ => rfl, ?_, ?_⟩
    · rintro _ _ (hd | hd) _ _
      · rw [hd] at h3
        exact absurd h3.1 (by simp)
      · exact absurd hd.symm h3.2
    · rintro _ _ (hd | hd) _ _
      · rw [hd] at h3
        exact absurd h3.1 (by simp)
      · exact absurd hd.symm h3.2
  by_cases h4 : index.sparse = true ∧ index.unique = true
  · rw [createIndex_eq_sparseUnique env index h1 h2 h3 h4]
    have hinv : invalidIndex index := Or.inr (Or.inr (Or.inr (Or.inr ⟨h4.2, h4.1⟩)))
    refine ⟨⟨fun _ => hinv, fun _ => ⟨.indexSparseAndUnique, rfl, by decide⟩⟩,
      ⟨fun _ => hinv, fun _ => rfl⟩, fun h => absurd h h1, fun h => absurd h h2,
      ?_, fun _ _ _ _ _ => rfl, ?_⟩
    · intro _ _ hd hl
      exact absurd ⟨List.length_pos.mpr hd, fun he => hl he.symm⟩ h3
    · intro _ _ _ hnus _
      exact absurd ⟨h4.2, h4.1⟩ hnus
  by_cases h5 : index.direction.all (fun d => d == 1 || d == -1) = true
  · rw [createIndex_eq_valid env index h1 h2 h3 h4 h5]
    have hninv := invalidIndex_cases index h1 h2 h3 h4 h5
    refine ⟨⟨?_, fun h => absurd h hninv⟩,
      ⟨fun h => by simp at h, fun h => absurd h hninv⟩,
      fun h => absurd h h1, fun h => absurd h h2, ?_, ?_, ?_⟩
    · rintro ⟨e, he, hne⟩
      cases henv : env.createOne index <;> rw [henv] at he <;> simp at he
      exact (hne he.symm).elim
    · intro _ _ hd hl
      exact absurd ⟨List.length_pos.mpr hd, fun he => hl he.symm⟩ h3
    · intro _ _ _ hu hs
      exact absurd ⟨hs, hu⟩ h4
    · intro _ _ _ _ hd
      exact absurd h5 ((not_all_dir_iff index).mpr hd)
  · rw [createIndex_eq_badDirection env index h1 h2 h3 h4 h5]
    have hinv : invalidIndex index :=
      Or.inr (Or.inr (Or.inr (Or.inl ((not_all_dir_iff index).mp h5))))
    refine ⟨⟨fun _ => hinv, fun _ => ⟨.invalidIndexDirection, rfl, by decide⟩⟩,
      ⟨fun _ => hinv, fun _ => rfl⟩, fun h => absurd h h1, fun h => absurd h h2,
      ?_, ?_, fun _ _ _ _ _ => rfl⟩
    · intro _ _ hd hl
      exact absurd ⟨List.length_pos.mpr hd, fun he => hl he.symm⟩ h3
    · intro _ _ _ hu hs
      exact absurd ⟨hs, hu⟩ h4

/-! ### C3: reconciliation after a build-in-progress error -/

/-- The names the drop loop of `updateMongoIndexes` targets: the existing
index names that were not created during this run and are not
"_"-prefixed. -/
def dropTargets (created existing : List String) : List String :=
  existing.filter (fun n => !(created.contains n || startsWithUnderscore n))

theorem dropTargets_cons_skip (created : List String) (name : String)
    (rest : List String)
    (h : (created.contains name || startsWithUnderscore name) = true) :
    dropTargets created (name :: rest) = dropTargets created rest := by
  unfold dropTargets
  rw [List.filter_cons, h]
  simp

theorem dropTargets_cons_keep (created : List String) (name : String)
    (rest : List String)
    (h : (created.contains name || startsWithUnderscore name) = false) :
    dropTargets created (name :: rest) = name :: dropTargets created rest := by
  unfold dropTargets
  rw [List.filter_cons, h]
  simp

theorem dropLoop_targets_ok (env : DbEnv) (created : List String) :
    ∀ existing : List String,
      (∀ n ∈ dropTargets created existing, env.dropOne n ≠ .failed) →
      dropLoop env created existing =
        ((dropTargets created existing).map .dropOne, none) := by
  intro existing
  induction existing with
  | nil =>
    intro _
    simp [dropLoop, dropTargets]
  | cons name rest ih =>
    intro hnf
    rw [dropLoop]
    by_cases h : (created.contains name || startsWithUnderscore name) = true
    · rw [if_pos h, dropTargets_cons_skip created name rest h]
      exact ih (by rw [dropTargets_cons_skip created name rest h] at hnf; exact hnf)
    · have hb : (created.contains name || startsWithUnderscore name) = false := by
        simpa using h
      have htarg := dropTargets_cons_keep created name rest hb
      have hmem : name ∈ dropTargets created (name :: rest) := by
        rw [htarg]
        exact List.mem_cons_self _ _
      rw [if_neg h]
      have ihok := ih (fun n hn => hnf n (by rw [htarg]; exact List.mem_cons_of_mem _ hn))
      cases henv : env.dropOne name with
      | failed => exact absurd henv (hnf name hmem)
      | ok =>
        rw [ihok, htarg]
        simp
      | notFound =>
        rw [ihok, htarg]
        simp

theorem dropLoop_fail_at (env : DbEnv) (created : List String) :
    ∀ (existing ts₁ : List String) (t : String) (ts₂ : List String),
      dropTargets created existing = ts₁ ++ t :: ts₂ →
      (∀ n ∈ ts₁, env.dropOne n ≠ .failed) →
      env.dropOne t = .failed →
      dropLoop env created existing = ((ts₁ ++ [t]).map .dropOne, some .dbError) := by
  intro existing
  induction existing with
  | nil =>
    intro ts₁ t ts₂ heq _ _
    simp only [dropTargets, List.filter_nil] at heq
    cases ts₁ <;> simp at heq
  | cons name rest ih =>
    intro ts₁ t ts₂ heq hok hfail
    rw [dropLoop]
    by_cases h : (created.contains name || startsWithUnderscore name) = true
    · rw [if_pos h]
      rw [dropTargets_cons_skip created name rest h] at heq
      exact ih ts₁ t ts₂ heq hok hfail
    · have hb : (created.contains name || startsWithUnderscore name) = false := by
        simpa using h
      rw [dropTargets_cons_keep created name rest hb] at heq
      rw [if_neg h]
      cases ts₁ with
      | nil =>
        rw [List.nil_append] at heq
        injection heq with h1 h2
        subst h1
        rw [hfail]
        rfl
      | cons n1 ts₁' =>
        rw [List.cons_append] at heq
        injection heq with h1 h2
        subst h1
        have hokname : env.dropOne name ≠ .failed := hok name (List.mem_cons_self _ _)
        cases henv : env.dropOne name with
        | failed => exact absurd henv hokname
        | ok =>
          rw [ih ts₁' t ts₂ h2 (fun n hn => hok n (List.mem_cons_of_mem _ hn)) hfail]
          simp
        | notFound =>
          rw [ih ts₁' t ts₂ h2 (fun n hn => hok n (List.mem_cons_of_mem _ hn)) hfail]
          simp

theorem createLoop_ok_append (env : DbEnv) :
    ∀ (done rest : List Index),
      (∀ i ∈ done, (createIndex env i).2 = .ok (indexName i)) →
      createLoop env (done ++ rest) =
        ((done.map (fun i => (createIndex env i).1)).flatten ++ (createLoop env rest).1,
          done.map indexName ++ (createLoop env rest).2.1,
          (createLoop env rest).2.2) := by
  intro done
  induction done with
  | nil =>
    intro rest _
    simp
  | cons i done' ih =>
    intro rest h
    have hpair : createIndex env i = ((createIndex env i).1, .ok (indexName i)) := by
      rw [← h i (List.mem_cons_self _ _)]
    rw [List.cons_append, createLoop, hpair]
    show ((createIndex env i).1 ++ (createLoop env (done' ++ rest)).1,
        indexName i :: (createLoop env (done' ++ rest)).2.1,
        (createLoop env (done' ++ rest)).2.2) = _
    rw [ih rest (fun j hj => h j (List.mem_cons_of_mem _ hj))]
    simp [List.flatten_cons]

/-- C3 (amended): when the creation of some declared index reports the
"Existing index build in progress" error — the indexes declared before it
having been created successfully — `updateMongoIndexes` aborts index
creation for that collection for that run (no index after the failing one
is created), but it does not stop mutating the collection: it still lists
the existing indexes and runs the drop loop over every existing index
that was not created during the run and is not "_"-prefixed, in listing
order; when none of these drops hard-fails, all of them are dropped
("index not found" is tolerated), and a hard drop failure stops the drop
loop at that index with a database error. -/
theorem updateMongoIndexes_buildInProgress (env : DbEnv) (done : List Index)
    (bad : Index) (rest : List Index) (existing : List String)
    (hdone : ∀ i ∈ done, (createIndex env i).2 = .ok (indexName i))
    (hbad : (createIndex env bad).2 = .buildInProgress)
    (hlist : env.listIndexes = some existing) :
    updateMongoIndexes env (done ++ bad :: rest) =
      ((done.map (fun i => (createIndex env i).1)).flatten ++ (createIndex env bad).1
          ++ [.listIndexes] ++ (dropLoop env (done.map indexName) existing).1,
        (dropLoop env (done.map indexName) existing).2) ∧
    ((∀ n ∈ dropTargets (done.map indexName) existing, env.dropOne n ≠ .failed) →
      dropLoop env (done.map indexName) existing =
        ((dropTargets (done.map indexName) existing).map .dropOne, none)) ∧
    (∀ (ts₁ : List String) (t : String) (ts₂ : List String),
      dropTargets (done.map indexName) existing = ts₁ ++ t :: ts₂ →
      (∀ n ∈ ts₁, env.dropOne n ≠ .failed) →
      env.dropOne t = .failed →
      dropLoop env (done.map indexName) existing =
        ((ts₁ ++ [t]).map .dropOne, some .dbError)) := by
  refine ⟨?_, dropLoop_targets_ok env (done.map indexName) existing,
    dropLoop_fail_at env (done.map indexName) existing⟩
  have hpair : createIndex env bad = ((createIndex env bad).1, .buildInProgress) := by
    rw [← hbad]
  have hbadloop : createLoop env (bad :: rest) = ((createIndex env bad).1, [], none) := by
    rw [createLoop, hpair]
  have hloop := createLoop_ok_append env done (bad :: rest) hdone
  rw [hbadloop] at hloop
  have hlen : ¬ (done ++ bad :: rest).length = 0 := by simp
  unfold updateMongoIndexes
  rw [if_neg hlen, hloop, hlist]
  simp

/-- A driver environment in which every index creation reports the
build-in-progress error, the collection's existing indexes are the system
index `_id_` and the declared index `SL_b`, and drops succeed. -/
def envBuildInProgress : DbEnv :=
  { createOne := fun _ => .buildInProgress
    listIndexes := some ["_id_", "SL_b"]
    dropOne := fun _ => .ok
    collModOk := true }

/-- C3 (counterexample): with declared indexes on keys "a" and "b", where
creating the first hits the build-in-progress error and `SL_b` already
exists, the run still drops the index `SL_b` — an index mutation on the
collection during the same run, contradicting the claim that no further
index mutation is performed. -/
theorem updateMongoIndexes_drops_after_buildInProgress :
    (createIndex envBuildInProgress { keys := ["a"] }).2 = .buildInProgress ∧
    MongoOp.dropOne "SL_b" ∈
      (updateMongoIndexes envBuildInProgress [{ keys := ["a"] }, { keys := ["b"] }]).1 := by
  decide

/-- A driver environment in which the index on "a" is created, every
other creation reports the build-in-progress error, the collection's
existing indexes are `_id_`, the declared `SL_a` and the obsolete `SL_c`,
and drops succeed. -/
def envPartialBuild : DbEnv :=
  { createOne := fun i => if i.keys = ["a"] then .ok else .buildInProgress
    listIndexes := some ["_id_", "SL_a", "SL_c"]
    dropOne := fun _ => .ok
    collModOk := true }

/-- Witness for `updateMongoIndexes_buildInProgress` with a non-empty
created set: the second of three declared indexes hits the
build-in-progress error after `SL_a` was created; the drop loop spares
`_id_` and the created `SL_a` and drops only `SL_c`. -/
theorem updateMongoIndexes_buildInProgress_witness :
    updateMongoIndexes envPartialBuild
        [{ keys := ["a"] }, { keys := ["b"] }, { keys := ["c"] }] =
      ((([{ keys := ["a"] }] : List Index).map
            (fun i => (createIndex envPartialBuild i).1)).flatten ++
          (createIndex envPartialBuild { keys := ["b"] }).1 ++ [.listIndexes] ++
          (dropLoop envPartialBuild (([{ keys := ["a"] }] : List Index).map indexName)
            ["_id_", "SL_a", "SL_c"]).1,
        (dropLoop envPartialBuild (([{ keys := ["a"] }] : List Index).map indexName)
          ["_id_", "SL_a", "SL_c"]).2) ∧
    dropLoop envPartialBuild (([{ keys := ["a"] }] : List Index).map indexName)
        ["_id_", "SL_a", "SL_c"] =
      ((dropTargets (([{ keys := ["a"] }] : List Index).map indexName)
          ["_id_", "SL_a", "SL_c"]).map .dropOne, none) :=
  ⟨(updateMongoIndexes_buildInProgress envPartialBuild [{ keys := ["a"] }]
      { keys := ["b"] } [{ keys := ["c"] }] ["_id_", "SL_a", "SL_c"]
      (by decide) (by decide) rfl).1,
    (updateMongoIndexes_buildInProgress envPartialBuild [{ keys := ["a"] }]
      { keys := ["b"] } [{ keys := ["c"] }] ["_id_", "SL_a", "SL_c"]
      (by decide) (by decide) rfl).2.1
      (fun n _ => by simp [envPartialBuild])⟩

/-! ### C9: nil schema only disables validation -/

/-- C9: for an entity type whose configured schema is nil, the
reconciliation body issues exactly one driver call — the `collMod` that
disables the JSON-schema validator — so no index is created, listed or
dropped; and the configuration is not rejected for declaring no indexes:
when the `collMod` succeeds the run reports no error. -/
theorem createOrUpdateEntitySchema_nilSchema (env : DbEnv) (globalCase : Case)
    (validations : EntitySchema) (h : validations.schema = none) :
    (createOrUpdateEntitySchema env globalCase validations).1 = [.disableValidation] ∧
    (env.collModOk = true →
      (createOrUpdateEntitySchema env globalCase validations).2 = none) := by
  refine ⟨by simp [createOrUpdateEntitySchema, h, disableMongoJSONValidation], ?_⟩
  intro hc
  simp [createOrUpdateEntitySchema, h, disableMongoJSONValidation, hc]

/-- Witness for `createOrUpdateEntitySchema_nilSchema` at a concrete
environment and an entity schema with a nil schema. -/
theorem createOrUpdateEntitySchema_nilSchema_witness :
    (createOrUpdateEntitySchema envBuildInProgress ⟨true, "lower"⟩ ⟨none⟩).1 =
      [.disableValidation] ∧
    (createOrUpdateEntitySchema envBuildInProgress ⟨true, "lower"⟩ ⟨none⟩).2 = none :=
  ⟨(createOrUpdateEntitySchema_nilSchema envBuildInProgress ⟨true, "lower"⟩ ⟨none⟩ rfl).1,
    (createOrUpdateEntitySchema_nilSchema envBuildInProgress ⟨true, "lower"⟩ ⟨none⟩ rfl).2 rfl⟩

/-! ### C4: the int-str regex language -/

theorem regexInt64Core_eq_canonicalDigits (l : List Char) :
    regexInt64Core l = canonicalDigits l := by
  cases l with
  | nil => rfl
  | cons d ds =>
    by_cases hd : d = '0'
    · subst hd
      cases ds with
      | nil => decide
      | cons e es => simp [regexInt64Core, canonicalDigits]
    · have ht : d.toNat ≠ 48 := by
        intro hc
        apply hd
        apply Char.ext
        apply UInt32.ext
        simpa [Char.toNat] using hc
      rw [Bool.eq_iff_iff]
      simp only [regexInt64Core, canonicalDigits, if_neg hd, isDigitChar,
        Bool.and_eq_true, decide_eq_true_eq, Bool.or_eq_true, ne_eq,
        decide_not, Bool.not_eq_true', decide_eq_false_iff_not]
      constructor
      · intro hfwd
        obtain ⟨⟨⟨h49, h57⟩, hlen⟩, hall⟩ := hfwd
        exact ⟨⟨⟨⟨by omega, h57⟩, hall⟩, hlen⟩, Or.inl ht⟩
      · intro hbwd
        obtain ⟨⟨⟨⟨h48, h57⟩, hall⟩, hlen⟩, _⟩ := hbwd
        exact ⟨⟨⟨by omega, h57⟩, hlen⟩, hall⟩

theorem canonicalDec19_cons (c : Char) (rest : List Char) (s : String)
    (h : s.toList = c :: rest) :
    canonicalDec19 s = canonicalDigits (if c = '-' then rest else c :: rest) := by
  unfold canonicalDec19
  rw [h]

theorem regexInt64Signed_eq_canonicalDec19 (s : String) :
    regexInt64Signed s.toList = canonicalDec19 s := by
  cases hls : s.toList with
  | nil =>
    unfold canonicalDec19
    rw [hls]
    rfl
  | cons c rest =>
    rw [canonicalDec19_cons c rest s hls]
    show (if c = '-' then regexInt64Core rest else regexInt64Core (c :: rest)) = _
    by_cases hc : c = '-'
    · rw [if_pos hc, if_pos hc, regexInt64Core_eq_canonicalDigits]
    · rw [if_neg hc, if_neg hc, regexInt64Core_eq_canonicalDigits]

theorem matchLiteralThenRange_sound (lo hi : Nat) :
    ∀ (lit s : List Char), matchLiteralThenRange lo hi lit s = true →
      ∃ c, s = lit ++ [c] ∧ lo ≤ c.toNat ∧ c.toNat ≤ hi := by
  intro lit
  induction lit with
  | nil =>
    intro s h
    match s with
    | [] => simp [matchLiteralThenRange] at h
    | [c] =>
      simp only [matchLiteralThenRange, Bool.and_eq_true, decide_eq_true_eq] at h
      exact ⟨c, rfl, h.1, h.2⟩
    | c :: d :: s' => simp [matchLiteralThenRange] at h
  | cons a lit' ih =>
    intro s h
    match s with
    | [] => simp [matchLiteralThenRange] at h
    | c :: s' =>
      simp only [matchLiteralThenRange, Bool.and_eq_true, decide_eq_true_eq] at h
      obtain ⟨rfl, h2⟩ := h
      obtain ⟨e, rfl, h3, h4⟩ := ih s' h2
      exact ⟨e, rfl, h3, h4⟩

theorem regexInt64MaxEdge_signed (l : List Char)
    (h : regexInt64MaxEdge l = true) : regexInt64Signed l = true := by
  obtain ⟨c, rfl, hlo, hhi⟩ := matchLiteralThenRange_sound 48 55 _ l h
  show regexInt64Signed ('9' :: ("22337203685477580".toList ++ [c])) = true
  simp [regexInt64Signed, regexInt64Core, isDigitChar]
  omega

theorem regexInt64MinEdge_signed (l : List Char)
    (h : regexInt64MinEdge l = true) : regexInt64Signed l = true := by
  unfold regexInt64MinEdge at h
  have hl : l = "-9223372036854775808".toList := by
    simpa using h
  subst hl
  decide

/-- C4 (amended): a string is accepted by the pattern `regexInt64` emitted
for int-str fields if and only if it is an optional minus sign followed by
a canonical decimal digit string of 1 to 19 digits (either exactly "0" or
not starting with '0').  The int64 range bound of the claim does not hold:
the first regex alternative already accepts every canonical string of up
to 19 digits, including values beyond the int64 range, and in-range
strings with leading zeros are rejected. -/
theorem regexInt64_language (s : String) :
    regexInt64Matches s = canonicalDec19 s := by
  unfold regexInt64Matches
  cases hs : regexInt64Signed s.toList with
  | true =>
    rw [← regexInt64Signed_eq_canonicalDec19, hs]
    simp
  | false =>
    cases hb : regexInt64MaxEdge s.toList with
    | true => rw [regexInt64MaxEdge_signed _ hb] at hs; exact absurd hs (by simp)
    | false =>
      cases hm : regexInt64MinEdge s.toList with
      | true => rw [regexInt64MinEdge_signed _ hm] at hs; exact absurd hs (by simp)
      | false =>
        rw [← regexInt64Signed_eq_canonicalDec19, hs]
        simp

/-- C4 (counterexample): the 19-digit string 9999999999999999999 — whose
value exceeds the int64 maximum 9223372036854775807 — is accepted by
`regexInt64`, so the pattern's language is not the int64-bounded language
the claim states. -/
theorem regexInt64_not_int64_bounded :
    regexInt64Matches "9999999999999999999" = true ∧
      specInt64Lang "9999999999999999999" = false := by
  decide

/-! ### C5: per-field constraint priority -/

/-- C5: the per-field switch emits at most one value constraint (an
`Option`), chosen by priority: explicit pattern > non-empty enum >
type-driven constraint (datetime / int-str / bool-str) > case rule; the
lower-case pattern is applied only when the field's BSON type is string
and the effective case config (field-level if present, else the global
default) has strict=true and type="lower"; and a field whose BSON type is
not string never receives a constraint from its case rule. -/
theorem fieldConstraint_priority (field : Field) (globalCase : Case) :
    (field.pattern ≠ "" →
      fieldConstraint field globalCase = some (.pattern field.pattern)) ∧
    (field.pattern = "" → ∀ v vs, field.enum = some (v :: vs) →
      fieldConstraint field globalCase = some (.enum (v :: vs))) ∧
    (field.pattern = "" → (field.enum = none ∨ field.enum = some []) →
      field.type = "datetime" →
      fieldConstraint field globalCase = some (.pattern regexRFC3339)) ∧
    (field.pattern = "" → (field.enum = none ∨ field.enum = some []) →
      field.type = "int-str" →
      fieldConstraint field globalCase = some (.pattern regexInt64)) ∧
    (field.pattern = "" → (field.enum = none ∨ field.enum = some []) →
      field.type = "bool-str" →
      fieldConstraint field globalCase = some (.enum ["true", "false"])) ∧
    (field.pattern = "" → (field.enum = none ∨ field.enum = some []) →
      field.type ≠ "datetime" → field.type ≠ "int-str" → field.type ≠ "bool-str" →
      (field.fieldCase.getD globalCase).strict = true →
      (bsonTypeOf field.type).getD "" = "string" →
      (field.fieldCase.getD globalCase).type = "lower" →
      fieldConstraint field globalCase = some (.pattern regexLowerCase)) ∧
    (field.pattern = "" → (field.enum = none ∨ field.enum = some []) →
      field.type ≠ "datetime" → field.type ≠ "int-str" → field.type ≠ "bool-str" →
      (field.fieldCase.getD globalCase).strict = true →
      (bsonTypeOf field.type).getD "" = "string" →
      (field.fieldCase.getD globalCase).type ≠ "lower" →
      fieldConstraint field globalCase = none) ∧
    (field.pattern = "" → (field.enum = none ∨ field.enum = some []) →
      field.type ≠ "datetime" → field.type ≠ "int-str" → field.type ≠ "bool-str" →
      ¬ ((field.fieldCase.getD globalCase).strict = true ∧
        (bsonTypeOf field.type).getD "" = "string") →
      fieldConstraint field globalCase = none) := by
  refine ⟨?_, ?_, ?_, ?_, ?_, ?_, ?_, ?_⟩
  · intro hp
    simp [fieldConstraint, hp]
  · intro hp v vs he
    simp [fieldConstraint, hp, he]
  · intro hp he ht
    rcases he with he | he <;> simp [fieldConstraint, hp, he, ht]
  · intro hp he ht
    rcases he with he | he <;> simp [fieldConstraint, hp, he, ht]
  · intro hp he ht
    rcases he with he | he <;> simp [fieldConstraint, hp, he, ht]
  · intro hp he hd hi hb hstrict hstring hlower
    rcases he with he | he <;>
      simp [fieldConstraint, hp, he, hd, hi, hb, hstrict, hstring, hlower]
  · intro hp he hd hi hb hstrict hstring hlower
    rcases he with he | he <;>
      simp [fieldConstraint, hp, he, hd, hi, hb, hstrict, hstring, hlower]
  · intro hp he hd hi hb hcase
    rcases he with he | he <;>
      simp [fieldConstraint, hp, he, hd, hi, hb, hcase]

/-- Witness for `fieldConstraint_priority`: the int-str field of
TestBsonSchemaValidator gets the int64 pattern even under a strict
lower-case global config. -/
theorem fieldConstraint_priority_witness :
    fieldConstraint { name := "shards", type := "int-str" } ⟨true, "lower"⟩ =
      some (.pattern regexInt64) :=
  (fieldConstraint_priority { name := "shards", type := "int-str" }
    ⟨true, "lower"⟩).2.2.2.1 rfl (Or.inl rfl) rfl

/-! ### C10: validator error conditions -/

/-- Follows the claim's words: a schema field is rejected when its name is
empty, its type is unsupported (anything other than string, int, bool,
object, datetime, int-str, bool-str), or it carries a non-nil enum while
its type is not "string". -/
def badField (f : Field) : Prop :=
  f.name = "" ∨
    f.type ∉ ["string", "int", "bool", "object", "datetime", "int-str", "bool-str"] ∨
    (f.enum ≠ none ∧ f.type ≠ "string")

theorem bsonTypeOf_eq_none_iff (t : String) :
    bsonTypeOf t = none ↔
      t ∉ ["string", "int", "bool", "object", "datetime", "int-str", "bool-str"] := by
  unfold bsonTypeOf
  split_ifs with h1 h2 h3
  · rcases h1 with h | h | h <;> simp [h]
  · simp [h2]
  · rcases h3 with h | h | h <;> simp [h]
  · simp_all

theorem BSONSchemaValidatorLoop_error_iff (globalCase : Case) :
    ∀ fields : List Field,
      (∃ e, BSONSchemaValidatorLoop globalCase fields = .error e) ↔
        ∃ f ∈ fields, badField f := by
  intro fields
  induction fields with
  | nil => simp [BSONSchemaValidatorLoop]
  | cons field rest ih =>
    rw [BSONSchemaValidatorLoop]
    by_cases hname : field.name = ""
    · simp only [if_pos hname]
      constructor
      · intro _
        exact ⟨field, List.mem_cons_self _ _, Or.inl hname⟩
      · intro _
        exact ⟨.fieldNameEmpty, rfl⟩
    · rw [if_neg hname]
      cases hbt : bsonTypeOf field.type with
      | none =>
        simp only
        constructor
        · intro _
          exact ⟨field, List.mem_cons_self _ _,
            Or.inr (Or.inl ((bsonTypeOf_eq_none_iff field.type).mp hbt))⟩
        · intro _
          exact ⟨.invalidFieldType, rfl⟩
      | some bt =>
        have hsupp : field.type ∈
            ["string", "int", "bool", "object", "datetime", "int-str", "bool-str"] := by
          by_contra hc
          rw [← bsonTypeOf_eq_none_iff] at hc
          rw [hc] at hbt
          exact Option.noConfusion hbt
        by_cases henum : field.type ≠ "string" ∧ field.enum ≠ none
        · simp only [if_pos henum]
          constructor
          · intro _
            exact ⟨field, List.mem_cons_self _ _, Or.inr (Or.inr ⟨henum.2, henum.1⟩)⟩
          · intro _
            exact ⟨.enumNotString, rfl⟩
        · simp only [if_neg henum]
          constructor
          · intro hE
            obtain ⟨e, hE⟩ := hE
            cases hrec : BSONSchemaValidatorLoop globalCase rest with
            | error e' =>
              obtain ⟨f, hf, hbad⟩ := ih.mp ⟨e', hrec⟩
              exact ⟨f, List.mem_cons_of_mem _ hf, hbad⟩
            | ok acc =>
              rw [hrec] at hE
              exact Except.noConfusion hE
          · rintro ⟨f, hf, hbad⟩
            rcases List.mem_cons.mp hf with rfl | hf'
            · rcases hbad with hbad | hbad | hbad
              · exact absurd hbad hname
              · exact absurd hsupp hbad
              · exact absurd ⟨hbad.2, hbad.1⟩ henum
            · obtain ⟨e, he⟩ := ih.mpr ⟨f, hf', hbad⟩
              rw [he]
              exact ⟨e, rfl⟩

/-- C10: `BSONSchemaValidator` returns an error — and hence no validator —
exactly when some field has an empty name, an unsupported type, or a
non-nil enum on a non-string type; otherwise it returns a validator with
no error. -/
theorem BSONSchemaValidator_error_iff (schema : Schema) (globalCase : Case) :
    ((∃ e, BSONSchemaValidator schema globalCase = .error e) ↔
      ∃ f ∈ schema.fields, badField f) ∧
    ((∃ v, BSONSchemaValidator schema globalCase = .ok v) ↔
      ¬ ∃ f ∈ schema.fields, badField f) := by
  have hloop := BSONSchemaValidatorLoop_error_iff globalCase schema.fields
  constructor
  · constructor
    · rintro ⟨e, he⟩
      unfold BSONSchemaValidator at he
      cases hrec : BSONSchemaValidatorLoop globalCase schema.fields with
      | error e' => exact hloop.mp ⟨e', hrec⟩
      | ok acc =>
        rw [hrec] at he
        exact Except.noConfusion he
    · intro hbad
      obtain ⟨e, he⟩ := hloop.mpr hbad
      unfold BSONSchemaValidator
      rw [he]
      exact ⟨e, rfl⟩
  · constructor
    · rintro ⟨v, hv⟩ hbad
      obtain ⟨e, he⟩ := hloop.mpr hbad
      unfold BSONSchemaValidator at hv
      rw [he] at hv
      exact Except.noConfusion hv
    · intro hbad
      cases hrec : BSONSchemaValidatorLoop globalCase schema.fields with
      | error e' => exact absurd (hloop.mp ⟨e', hrec⟩) hbad
      | ok acc =>
        unfold BSONSchemaValidator
        rw [hrec]
        exact ⟨_, rfl⟩

/-! ### C1: insert stops at the first duplicate -/

theorem createEntitiesLoop_dup (env : InsertEnv) (wo : WriteOp) :
    ∀ (entities : List Entity) (k : Nat) (ids : List String) (events : List CDCEvent),
      createEntitiesLoop env wo k entities = (ids, events, some .duplicateEntity) →
      env.outcome (k + ids.length) = .dupKey ∧
      (∀ j, j < ids.length → env.outcome (k + j) = .ok) ∧
      events.length = ids.length ∧
      (∀ ev ∈ events, ev.op = "i") ∧
      ids.length < entities.length := by
  intro entities
  induction entities with
  | nil =>
    intro k ids events h
    simp [createEntitiesLoop] at h
  | cons e rest ih =>
    intro k ids events h
    rw [createEntitiesLoop] at h
    cases hout : env.outcome k with
    | dupKey =>
      rw [hout] at h
      rw [Prod.mk.injEq, Prod.mk.injEq] at h
      obtain ⟨hids, hevents, -⟩ := h
      subst hids
      subst hevents
      refine ⟨by simpa using hout, ?_, rfl, ?_, by simp⟩
      · intro j hj
        simp at hj
      · intro ev hev
        simp at hev
    | dbFailed =>
      rw [hout] at h
      rw [Prod.mk.injEq, Prod.mk.injEq] at h
      obtain ⟨-, -, hbad⟩ := h
      exact absurd hbad (by simp)
    | ok =>
      rw [hout] at h
      rw [Prod.mk.injEq, Prod.mk.injEq] at h
      obtain ⟨hids, hevents, herr⟩ := h
      subst hids
      subst hevents
      have hrec : createEntitiesLoop env wo (k + 1) rest =
          ((createEntitiesLoop env wo (k + 1) rest).1,
            (createEntitiesLoop env wo (k + 1) rest).2.1,
            some .duplicateEntity) := by
        rw [← herr]
      obtain ⟨ih1, ih2, ih3, ih4, ih5⟩ := ih (k + 1)
        (createEntitiesLoop env wo (k + 1) rest).1
        (createEntitiesLoop env wo (k + 1) rest).2.1 hrec
      refine ⟨?_, ?_, by simpa using ih3, ?_, by simpa using ih5⟩
      · have heq : k + ((env.newId k :: (createEntitiesLoop env wo (k + 1) rest).1).length) =
            (k + 1) + (createEntitiesLoop env wo (k + 1) rest).1.length := by
          simp
          omega
        rw [heq]
        exact ih1
      · intro j hj
        cases j with
        | zero => simpa using hout
        | succ j' =>
          have heq : k + (j' + 1) = (k + 1) + j' := by omega
          rw [heq]
          exact ih2 j' (by simpa using hj)
      · intro ev hev
        rcases List.mem_cons.mp hev with rfl | hev'
        · rfl
        · exact ih4 ev hev'

/-- C1: for every insert batch that fails with `duplicate-entity`, the
batch stopped at the first duplicate: exactly the entities before it were
inserted (the k-th insert succeeded for every k below the returned id
count and the insert at the id count was the duplicate), the number of
returned ids equals the number of "i" CDC events emitted, and it is
strictly less than the batch size. -/
theorem createEntities_duplicate_stops (env : InsertEnv) (wo : WriteOp)
    (entities : List Entity) (ids : List String) (events : List CDCEvent)
    (h : createEntities env wo entities = (ids, events, some .duplicateEntity)) :
    ids.length < entities.length ∧
    (events.filter (fun ev => ev.op == "i")).length = ids.length ∧
    events.length = ids.length ∧
    env.outcome ids.length = .dupKey ∧
    (∀ j, j < ids.length → env.outcome j = .ok) := by
  unfold createEntities at h
  by_cases hemp : entities.isEmpty
  · rw [if_pos hemp] at h
    have := congrArg (fun p => p.2.2) h
    simp at this
  rw [if_neg hemp] at h
  by_cases hmeta : hasCallerMetaLabels entities = true
  · rw [if_pos hmeta] at h
    have := congrArg (fun p => p.2.2) h
    simp at this
  rw [if_neg hmeta] at h
  obtain ⟨h1, h2, h3, h4, h5⟩ := createEntitiesLoop_dup env wo entities 0 ids events h
  refine ⟨h5, ?_, h3, by simpa using h1, fun j hj => by simpa using h2 j hj⟩
  rw [List.filter_eq_self.mpr, h3]
  intro ev hev
  simp [h4 ev hev]

/-- The insert environment of the partial-success scenario: ids are the
batch positions, the first insert succeeds and the second hits the unique
index (TestCreateEntitiesMultiplePartialSuccess). -/
def insertEnvDup : InsertEnv :=
  { newId := fun k => toString k
    outcome := fun k => if k = 0 then .ok else .dupKey }

/-- The write op of the store tests: entity type "nodes", caller
"test_user". -/
def woNodes : WriteOp :=
  { entityType := "nodes", caller := "test_user" }

/-- The batch of TestCreateEntitiesMultiplePartialSuccess: x=5 is
inserted, x=6 is a duplicate, x=7 is never attempted. -/
def dupBatch : List Entity :=
  [[("x", .int 5)], [("x", .int 6)], [("x", .int 7)]]

/-- Witness for `createEntities_duplicate_stops` at the environment and
batch of TestCreateEntitiesMultiplePartialSuccess. -/
theorem createEntities_duplicate_stops_witness :
    (createEntities insertEnvDup woNodes dupBatch).1.length < dupBatch.length :=
  (createEntities_duplicate_stops insertEnvDup woNodes dupBatch _ _ rfl).1

/-! ### C2: the DeleteLabel CDC event -/

theorem lookup_filter_pos (p : String → Bool) (k : String) (hp : p k = true) :
    ∀ e : Entity, (e.filter (fun kv => p kv.1)).lookup k = e.lookup k := by
  intro e
  induction e with
  | nil => rfl
  | cons kv rest ih =>
    obtain ⟨a, b⟩ := kv
    by_cases hpa : p a = true
    · rw [List.filter_cons_of_pos (by simpa using hpa)]
      by_cases hk : k = a
      · subst hk
        simp [List.lookup]
      · simp [List.lookup, beq_eq_false_iff_ne.mpr hk, ih]
    · have hk : ¬ k = a := fun hka => hpa (hka ▸ hp)
      rw [List.filter_cons_of_neg (by simpa using hpa)]
      rw [ih]
      simp [List.lookup, beq_eq_false_iff_ne.mpr hk]

theorem lookup_filter_neg (p : String → Bool) (k : String) (hp : p k = false) :
    ∀ e : Entity, (e.filter (fun kv => p kv.1)).lookup k = none := by
  intro e
  induction e with
  | nil => rfl
  | cons kv rest ih =>
    obtain ⟨a, b⟩ := kv
    by_cases hpa : p a = true
    · have hk : ¬ k = a := fun hka => by rw [hka, hpa] at hp; exact Bool.noConfusion hp
      rw [List.filter_cons_of_pos (by simpa using hpa)]
      simp [List.lookup, beq_eq_false_iff_ne.mpr hk, ih]
    · rw [List.filter_cons_of_neg (by simpa using hpa)]
      exact ih

theorem map_fst_filter (p : String → Bool) :
    ∀ e : Entity,
      (e.filter (fun kv => p kv.1)).map Prod.fst = (e.map Prod.fst).filter p := by
  intro e
  induction e with
  | nil => rfl
  | cons kv rest ih =>
    obtain ⟨a, b⟩ := kv
    by_cases hpa : p a = true
    · rw [List.filter_cons_of_pos (by simpa using hpa)]
      simp [List.filter_cons, hpa, ih]
    · rw [List.filter_cons_of_neg (by simpa using hpa)]
      simp [List.filter_cons, hpa, ih]

theorem map_fst_bumpRev (e : Entity) :
    (bumpRev e).map Prod.fst = e.map Prod.fst := by
  unfold bumpRev
  rw [List.map_map]
  congr 1
  funext kv
  by_cases h : kv.1 = "_rev" <;> simp [h]

theorem lookup_bumpRev_rev : ∀ e : Entity,
    (bumpRev e).lookup "_rev" = (e.lookup "_rev").map incRev := by
  intro e
  induction e with
  | nil => rfl
  | cons kv rest ih =>
    obtain ⟨a, b⟩ := kv
    by_cases ha : a = "_rev"
    · subst ha
      simp [bumpRev, List.lookup]
    · simp only [bumpRev, List.map_cons, if_neg ha]
      have hne : (("_rev" : String) == a) = false :=
        beq_eq_false_iff_ne.mpr fun hc => ha hc.symm
      simp only [List.lookup, hne]
      simpa [bumpRev] using ih

theorem lookup_bumpRev_ne (k : String) (hk : k ≠ "_rev") : ∀ e : Entity,
    (bumpRev e).lookup k = e.lookup k := by
  intro e
  induction e with
  | nil => rfl
  | cons kv rest ih =>
    obtain ⟨a, b⟩ := kv
    by_cases ha : a = "_rev"
    · subst ha
      simp only [bumpRev, List.map_cons, if_pos rfl]
      have hne : (k == "_rev") = false := beq_eq_false_iff_ne.mpr hk
      simp only [List.lookup, hne]
      simpa [bumpRev] using ih
    · simp only [bumpRev, List.map_cons, if_neg ha]
      by_cases hka : k = a
      · subst hka
        simp [List.lookup]
      · have hne : (k == a) = false := beq_eq_false_iff_ne.mpr hka
        simp only [List.lookup, hne]
        simpa [bumpRev] using ih

/-- C2 (amended): a successful DeleteLabel on an entity emits exactly one
CDC event with `Op = "u"`, whose `Old` is the prior entity projected onto
the meta-labels plus the deleted label (carrying the label's prior value)
and whose `New` holds exactly the meta-labels of the updated entity — the
deleted label absent and `_rev` incremented — matching the exact
expectations of TestDeleteLabel. -/
theorem deleteLabel_spec (wo : WriteOp) (e : Entity) (label : String)
    (hmeta : label ∉ ["_id", "_type", "_rev"]) :
    deleteLabel wo e label =
      .ok ⟨deleteLabelOld e label, deleteLabelUpdated e label,
        deleteLabelEvent wo e label⟩ ∧
    (deleteLabelEvent wo e label).op = "u" ∧
    ((deleteLabelEvent wo e label).old.getD []).lookup label = e.lookup label ∧
    ((deleteLabelEvent wo e label).old.getD []).map Prod.fst =
      (e.map Prod.fst).filter (fun k => (metaLabels ++ [label]).contains k) ∧
    ((deleteLabelEvent wo e label).new.getD []).lookup label = none ∧
    ((deleteLabelEvent wo e label).new.getD []).map Prod.fst =
      (e.map Prod.fst).filter (fun k => metaLabels.contains k) ∧
    (deleteLabelEvent wo e label).entityRev = revOf e + 1 ∧
    ((deleteLabelEvent wo e label).new.getD []).lookup "_rev" =
      (e.lookup "_rev").map incRev := by
  have hcont : metaLabels.contains label = false := by
    rw [Bool.eq_false_iff]
    intro hc
    exact hmeta (by simpa [metaLabels] using List.mem_of_elem_eq_true hc)
  have hid : label ≠ "_id" := by intro hc; exact hmeta (by simp [hc])
  have htype : label ≠ "_type" := by intro hc; exact hmeta (by simp [hc])
  have hrev : label ≠ "_rev" := by intro hc; exact hmeta (by simp [hc])
  have hlabmem : ((metaLabels ++ [label]).contains label) = true :=
    List.elem_eq_true_of_mem (List.mem_append_right _ (List.mem_singleton_self label))
  have hrevmem : (metaLabels.contains "_rev") = true := by decide
  have hrevne : ("_rev" : String) ≠ label := fun hc => hrev hc.symm
  refine ⟨?_, rfl, ?_, ?_, ?_, ?_, rfl, ?_⟩
  · unfold deleteLabel
    rw [if_neg (by rw [hcont]; simp)]
  · show (deleteLabelOld e label).lookup label = e.lookup label
    unfold deleteLabelOld projectLabels
    exact lookup_filter_pos (fun x => (metaLabels ++ [label]).contains x) label hlabmem e
  · show (deleteLabelOld e label).map Prod.fst = _
    unfold deleteLabelOld projectLabels
    exact map_fst_filter (fun x => (metaLabels ++ [label]).contains x) e
  · show (projectLabels (deleteLabelUpdated e label) metaLabels).lookup label = none
    unfold projectLabels
    exact lookup_filter_neg (fun x => metaLabels.contains x) label hcont _
  · show (projectLabels (deleteLabelUpdated e label) metaLabels).map Prod.fst = _
    unfold projectLabels
    rw [map_fst_filter (fun x => metaLabels.contains x) (deleteLabelUpdated e label)]
    unfold deleteLabelUpdated
    rw [map_fst_bumpRev (removeLabel e label)]
    unfold removeLabel
    rw [map_fst_filter (fun x => decide ¬(x = label)) e, List.filter_filter]
    congr 1
    funext k
    by_cases hk : k = label
    · subst hk
      rw [hcont]
      simp
    · simp [hk]
  · show (projectLabels (deleteLabelUpdated e label) metaLabels).lookup "_rev" = _
    unfold projectLabels
    rw [lookup_filter_pos (fun x => metaLabels.contains x) "_rev" hrevmem
      (deleteLabelUpdated e label)]
    unfold deleteLabelUpdated
    rw [lookup_bumpRev_rev (removeLabel e label)]
    unfold removeLabel
    rw [lookup_filter_pos (fun x => decide ¬(x = label)) "_rev" (by simpa using hrevne) e]

/-- The first test node of src/entity/store_test.go: labels x, y, z, a
present-but-empty foo, plus the meta-labels. -/
def testNode0 : Entity :=
  [("_type", .str "nodes"), ("_rev", .int 0), ("x", .int 2), ("y", .str "a"),
    ("z", .int 9), ("foo", .str ""), ("_id", .str "5f3a7f9a8e1b4c2d6a0f1e2d")]

/-- C2 (counterexample): deleting the label "foo" from the first test node
succeeds, yet the emitted event's `Old` contains the meta-label `_id` (so
it is not the one-entry map `{foo: ""}`) and its `New` is not the empty
map — the meta-labels appear in both, contradicting the claim. -/
theorem deleteLabel_event_contains_metaLabels :
    (deleteLabel woNodes testNode0 "foo").isOk = true ∧
    "_id" ∈ ((deleteLabelEvent woNodes testNode0 "foo").old.getD []).map Prod.fst ∧
    ((deleteLabelEvent woNodes testNode0 "foo").old.getD []).map Prod.fst ≠ ["foo"] ∧
    ((deleteLabelEvent woNodes testNode0 "foo").new.getD []) ≠ [] := by
  decide

/-- Witness for `deleteLabel_spec` at the TestDeleteLabel scenario. -/
theorem deleteLabel_spec_witness :
    deleteLabel woNodes testNode0 "foo" =
      .ok ⟨deleteLabelOld testNode0 "foo", deleteLabelUpdated testNode0 "foo",
        deleteLabelEvent woNodes testNode0 "foo"⟩ ∧
    (deleteLabelEvent woNodes testNode0 "foo").op = "u" :=
  ⟨(deleteLabel_spec woNodes testNode0 "foo" (by decide)).1,
    (deleteLabel_spec woNodes testNode0 "foo" (by decide)).2.1⟩

/-! ### C8: X-Etre-Trace parsing -/

theorem foldl_parse_eq_filterMap :
    ∀ (ps : List (List Char)) (m : TraceMap),
      ps.foldl
        (fun m p =>
          match parseTracePair p with
          | some kv => addTracePair m kv
          | none => m) m =
      (ps.filterMap parseTracePair).foldl addTracePair m := by
  intro ps
  induction ps with
  | nil => intro m; rfl
  | cons p rest ih =>
    intro m
    cases hp : parseTracePair p with
    | some kv => simp [List.foldl_cons, List.filterMap_cons, hp, ih]
    | none => simp [List.foldl_cons, List.filterMap_cons, hp, ih]

theorem lookup_append_left (k : String) :
    ∀ m1 : TraceMap, ∀ m2 : TraceMap, (m1.lookup k).isSome = true →
      (m1 ++ m2).lookup k = m1.lookup k := by
  intro m1 m2
  induction m1 with
  | nil => intro h; simp [List.lookup] at h
  | cons kv rest ih =>
    obtain ⟨a, b⟩ := kv
    intro h
    by_cases hk : k = a
    · subst hk
      simp [List.lookup]
    · have hne : (k == a) = false := beq_eq_false_iff_ne.mpr hk
      simp only [List.cons_append, List.lookup, hne] at h ⊢
      exact ih h

theorem lookup_addTracePair (m : TraceMap) (kv : String × String) (k : String)
    (h : (m.lookup k).isSome = true) :
    (addTracePair m kv).lookup k = m.lookup k := by
  unfold addTracePair
  by_cases hx : (m.lookup kv.1).isSome = true
  · rw [if_pos hx]
  · rw [if_neg hx]
    exact lookup_append_left k m [kv] h

theorem lookup_foldl_addTracePair (k : String) :
    ∀ (kvs : List (String × String)) (m : TraceMap),
      (m.lookup k).isSome = true →
      (kvs.foldl addTracePair m).lookup k = m.lookup k := by
  intro kvs
  induction kvs with
  | nil => intro m _; rfl
  | cons kv rest ih =>
    intro m h
    rw [List.foldl_cons]
    rw [ih (addTracePair m kv) (by rw [lookup_addTracePair m kv k h]; exact h)]
    exact lookup_addTracePair m kv k h

/-- C8: the X-Etre-Trace handling of Authenticate: an empty header value
leaves the caller's trace unchanged (nil stays nil); a non-empty header
folds exactly its well-formed pairs into the trace — a pair containing no
'=' is silently dropped while the remaining well-formed pairs are still
kept — and a trace key already set by the auth plugin keeps its plugin
value, never the header's. -/
theorem authenticateTrace_spec (pluginTrace : Option TraceMap) (header : String) :
    (header = "" → authenticateTrace pluginTrace header = pluginTrace) ∧
    (header ≠ "" → authenticateTrace pluginTrace header =
      some (((splitOnChar ',' header.toList).filterMap parseTracePair).foldl
        addTracePair (pluginTrace.getD []))) ∧
    (∀ m k, pluginTrace = some m → (m.lookup k).isSome = true →
      ∃ m', authenticateTrace pluginTrace header = some m' ∧
        m'.lookup k = m.lookup k) := by
  refine ⟨?_, ?_, ?_⟩
  · intro h
    simp [authenticateTrace, h]
  · intro h
    unfold authenticateTrace
    rw [if_neg h, foldl_parse_eq_filterMap]
  · intro m k hm hk
    subst hm
    by_cases h : header = ""
    · exact ⟨m, by simp [authenticateTrace, h], rfl⟩
    · have heq : authenticateTrace (some m) header =
          some (((splitOnChar ',' header.toList).filterMap parseTracePair).foldl
            addTracePair m) := by
        unfold authenticateTrace
        rw [if_neg h, foldl_parse_eq_filterMap]
        rfl
      exact ⟨_, heq, lookup_foldl_addTracePair k _ m hk⟩

/-- Witness for `authenticateTrace_spec` at the TestTraceHeader vectors:
an empty header leaves a nil trace nil; "app=foo,host" keeps only the
well-formed pair; a plugin-set "app" survives "app=foo,host=bar". -/
theorem authenticateTrace_spec_witness :
    authenticateTrace none "" = none ∧
    authenticateTrace none "app=foo,host" =
      some (((splitOnChar ',' ("app=foo,host").toList).filterMap parseTracePair).foldl
        addTracePair []) ∧
    authenticateTrace none "app=foo,host" = some [("app", "foo")] ∧
    authenticateTrace (some [("app", "do-not-change")]) "app=foo,host=bar" =
      some [("app", "do-not-change"), ("host", "bar")] :=
  ⟨(authenticateTrace_spec none "").1 rfl,
    (authenticateTrace_spec none "app=foo,host").2.1 (by decide),
    by decide, by decide⟩

end Etre
